import Mathlib

/-!
Verification of `gc-content-analysis/gc_content_analyzer.py`.

The Python source is embedded shallowly:
* Python strings are `List Char`; `str.upper` is char-wise ASCII uppercasing
  (`Char.toUpper`), which agrees with Python on the nucleotide alphabets
  analyzed here;
* `str.splitlines`, `str.strip` and `dict` assignment are reproduced with
  their Python semantics (line-boundary set, whitespace set, in-place
  last-write-wins update with insertion order);
* machine floats become exact rationals for all arithmetic performed by the
  script itself; the value returned by the external `scipy.stats.chisquare`
  call is modelled from the spec (Pearson statistic and the chi-square
  survival function as a regularized upper incomplete gamma), since scipy is
  not part of this repository.
-/

/-- The characters Python `str.isspace` recognizes (hence what `str.strip`
removes), restricted to the code points below U+00FF plus the two Unicode
line/paragraph separators; other Unicode `Zs` spaces never occur in the
alphabets this program analyzes. -/
def pyIsSpace (c : Char) : Bool :=
  (c == ' ') || (c == '\t') || (c == '\n') || (c == '\x0b') || (c == '\x0c') ||
    (c == '\r') || (c == '\x1c') || (c == '\x1d') || (c == '\x1e') || (c == '\x1f') ||
    (c == '\x85') || (c == '\xa0') || (c == ' ') || (c == ' ')

/-- The line-boundary characters of Python `str.splitlines` (besides the
two-character boundary `"\r\n"`, handled separately). -/
def isPyLineBreak (c : Char) : Bool :=
  (c == '\n') || (c == '\r') || (c == '\x0b') || (c == '\x0c') || (c == '\x1c') ||
    (c == '\x1d') || (c == '\x1e') || (c == '\x85') || (c == ' ') || (c == ' ')

/-- Worker for `pySplitlines`: `cur` is the current line accumulated in
reverse. A trailing unterminated line is emitted only when nonempty,
matching Python (`"".splitlines() = []`, `"a".splitlines() = ["a"]`,
`"a\n".splitlines() = ["a"]`). -/
def splitlinesAux : List Char → List Char → List (List Char)
  | [], cur => if cur.isEmpty then [] else [cur.reverse]
  | c :: rest, cur =>
    if isPyLineBreak c then
      cur.reverse ::
        (match rest with
        | r2 :: rest2 =>
          if c = '\r' ∧ r2 = '\n' then splitlinesAux rest2 []
          else splitlinesAux (r2 :: rest2) []
        | [] => splitlinesAux [] [])
    else
      splitlinesAux rest (c :: cur)

/-- Python `str.splitlines()`. -/
def pySplitlines (s : List Char) : List (List Char) :=
  splitlinesAux s []

/-- Python `str.strip()`: drop leading and trailing whitespace. -/
def pyStrip (s : List Char) : List Char :=
  ((s.dropWhile pyIsSpace).reverse.dropWhile pyIsSpace).reverse

/-- Python `str.upper()`, char-wise (ASCII); exact for the A/C/G/T
alphabets this program counts. -/
def pyUpper (s : List Char) : List Char :=
  s.map Char.toUpper

/-- Python `dict` assignment `d[k] = v`: overwrite in place when the key is
present, append otherwise (dicts preserve insertion order). -/
def dictInsert : List (List Char × List Char) → List Char → List Char →
    List (List Char × List Char)
  | [], k, v => [(k, v)]
  | (k1, v1) :: rest, k, v =>
    if k1 = k then (k, v) :: rest else (k1, v1) :: dictInsert rest k v

/-- The `if header: sequences[header] = sequence` save in
`read_fasta_string`: Python truthiness makes both `None` and the empty
string skip the save. -/
def saveRecord (header : Option (List Char)) (sequence : List Char)
    (sequences : List (List Char × List Char)) : List (List Char × List Char) :=
  match header with
  | some h => if h.isEmpty then sequences else dictInsert sequences h sequence
  | none => sequences

/-- The line loop of `read_fasta_string`: strip the line; a stripped line
starting with the delimiter saves the pending record and opens a new one
whose header is the rest of the line; any other line is appended to the
pending sequence; at end of input the pending record is saved. -/
def fastaLoop : List (List Char) → Option (List Char) → List Char →
    List (List Char × List Char) → List (List Char × List Char)
  | [], header, sequence, sequences => saveRecord header sequence sequences
  | line :: rest, header, sequence, sequences =>
    let l := pyStrip line
    if l.head? = some '>' then
      fastaLoop rest (some l.tail) [] (saveRecord header sequence sequences)
    else
      fastaLoop rest header (sequence ++ l) sequences

/-- Source function `read_fasta_string(fasta_string)`: parse FASTA text into an
(insertion-ordered) mapping from header to concatenated sequence. The
`try/except` wrapper in the source is dead for this pure body. -/
def read_fasta_string (fasta_string : List Char) : List (List Char × List Char) :=
  fastaLoop (pySplitlines fasta_string) none [] []

/-- Source function `calculate_gc_content(sequence)`: percentage of G/C in the uppercased
sequence; `0.0` for the empty sequence. -/
def calculate_gc_content (sequence : List Char) : ℚ :=
  let s := pyUpper sequence
  let gc_count := s.count 'G' + s.count 'C'
  let length := s.length
  if length = 0 then 0 else ((gc_count : ℚ) / (length : ℚ)) * 100

/-- Source function `calculate_nucleotide_counts(sequence)`: occurrences of each of
A, C, G, T in the uppercased sequence, returned in that order. -/
def calculate_nucleotide_counts (sequence : List Char) : ℕ × ℕ × ℕ × ℕ :=
  let s := pyUpper sequence
  (s.count 'A', s.count 'C', s.count 'G', s.count 'T')

/-- The local `observed = [c_count, g_count, a_count, t_count]` of
`perform_chisquare_test` (as exact rationals). -/
def observed_classes (sequence : List Char) : List ℚ :=
  match calculate_nucleotide_counts sequence with
  | (a_count, c_count, g_count, t_count) =>
    [(c_count : ℚ), (g_count : ℚ), (a_count : ℚ), (t_count : ℚ)]

/-- The local `expected = [gc, gc, at, at]` of `perform_chisquare_test`:
the classified total split into two GC cells and two AT cells. -/
def expected_classes (sequence : List Char) (expected_gc : ℚ) : List ℚ :=
  let total := (observed_classes sequence).sum
  let expected_gc_count := total * (expected_gc / 100) / 2
  let expected_at_count := total * ((100 - expected_gc) / 100) / 2
  [expected_gc_count, expected_gc_count, expected_at_count, expected_at_count]

/-- The local `observed_filtered`: observed cells whose expected cell is
nonzero. -/
def observed_filtered (sequence : List Char) (expected_gc : ℚ) : List ℚ :=
  (((observed_classes sequence).zip (expected_classes sequence expected_gc)).filter
      (fun p => p.2 != 0)).map (fun p => p.1)

/-- The local `expected_filtered`: expected cells that are nonzero. -/
def expected_filtered (sequence : List Char) (expected_gc : ℚ) : List ℚ :=
  (((observed_classes sequence).zip (expected_classes sequence expected_gc)).filter
      (fun p => p.2 != 0)).map (fun p => p.2)

/-- Modelled from the spec: the Pearson statistic computed by
`scipy.stats.chisquare` — the sum over classes of `(observed-expected)^2 /
expected` (scipy itself is not part of this repository). -/
def chisquare_statistic (obs expd : List ℚ) : ℚ :=
  ((obs.zip expd).map (fun p => (p.1 - p.2) ^ 2 / p.2)).sum

/-- Modelled from the spec: the p-value computed by `scipy.stats.chisquare`
— the upper-tail probability of the chi-square distribution with `df`
degrees of freedom at `x`, i.e. the regularized upper incomplete gamma
`Q(df/2, x/2)` (scipy itself is not part of this repository). -/
noncomputable def chiSquareSF (df : ℕ) (x : ℚ) : ℝ :=
  (∫ t in Set.Ioi ((x : ℝ) / 2), Real.exp (-t) * t ^ ((df : ℝ) / 2 - 1)) /
    Real.Gamma ((df : ℝ) / 2)

/-- The local `observed_gc` of `perform_chisquare_test`: GC percentage over
the classified total (denominator `total`, not the sequence length), `0.0`
when no base was classified. -/
def observed_gc_value (sequence : List Char) : ℚ :=
  match calculate_nucleotide_counts sequence with
  | (_a_count, c_count, g_count, _t_count) =>
    let total := (observed_classes sequence).sum
    if 0 < total then ((c_count : ℚ) + (g_count : ℚ)) / total * 100 else 0

/-- The tuple `perform_chisquare_test` returns when the test is computable
(the all-`None` return is `Option.none`). -/
structure ChiSquareOutcome where
  statistic : ℚ
  p_value : ℝ
  observed_gc : ℚ
  expected_gc : ℚ
  total : ℚ

/-- Source function `perform_chisquare_test(sequence, expected_gc)`: drop the class pairs
with expected value 0; with fewer than 2 classes left return `None`
(insufficient data); otherwise return statistic, p-value (chi-square with
`k-1` degrees of freedom), `observed_gc`, `expected_gc` and the classified
total. -/
noncomputable def perform_chisquare_test (sequence : List Char) (expected_gc : ℚ) :
    Option ChiSquareOutcome :=
  let observed_f := observed_filtered sequence expected_gc
  let expected_f := expected_filtered sequence expected_gc
  if observed_f.length < 2 then none
  else
    let statistic := chisquare_statistic observed_f expected_f
    some ⟨statistic, chiSquareSF (observed_f.length - 1) statistic,
      observed_gc_value sequence, expected_gc, (observed_classes sequence).sum⟩

/-- The significance verdict of `visualize_gc_content` (the same strict
`p_value < 0.05` comparison decides the verdict printed by `main`). -/
noncomputable def significance_label (p_value : ℝ) : String :=
  if p_value < 0.05 then "Значимо" else "Не значимо"

/-- Characters that are neither whitespace nor line boundaries; header
identifiers and sequence lines made of these survive `strip`/`splitlines`
unchanged. -/
def cleanChar (c : Char) : Bool :=
  !(pyIsSpace c) && !(isPyLineBreak c)

/-- Every character of the string is clean. -/
def cleanStr (s : List Char) : Bool :=
  s.all cleanChar

/-- The claim's generator: concatenation of `">" + id + "\n" + bases` per
pair, with no separator between records. -/
def encodeRecordsNoNL (pairs : List (List Char × List Char)) : List Char :=
  (pairs.map (fun p => '>' :: p.1 ++ '\n' :: p.2)).flatten

/-- Newline-terminated records: `">" + id + "\n" + bases + "\n"` per pair. -/
def encodeRecords (pairs : List (List Char × List Char)) : List Char :=
  (pairs.map (fun p => '>' :: p.1 ++ '\n' :: p.2 ++ ['\n'])).flatten

/-- The line list `[">"+id, bases, ...]` that the encoded text splits into. -/
def headerLines (pairs : List (List Char × List Char)) : List (List Char) :=
  (pairs.map (fun p => [('>' :: p.1), p.2])).flatten

/-! ### Evaluation lemmas for the composition analyzer -/

lemma observed_classes_eval (s : List Char) (a_n c_n g_n t_n : ℕ)
    (h : calculate_nucleotide_counts s = (a_n, c_n, g_n, t_n)) :
    observed_classes s = [(c_n : ℚ), (g_n : ℚ), (a_n : ℚ), (t_n : ℚ)] := by
  simp [observed_classes, h]

lemma expected_classes_eq (s : List Char) (egc : ℚ) :
    expected_classes s egc =
      [(observed_classes s).sum * (egc / 100) / 2, (observed_classes s).sum * (egc / 100) / 2,
        (observed_classes s).sum * ((100 - egc) / 100) / 2,
        (observed_classes s).sum * ((100 - egc) / 100) / 2] := by
  simp [expected_classes]

lemma filter_zip_of_all_ne : ∀ o e : List ℚ, (∀ x ∈ e, x ≠ 0) →
    ((o.zip e).filter (fun p => p.2 != 0)) = o.zip e := by
  intro o
  induction o with
  | nil => intro e he; simp
  | cons x xs ih =>
    intro e he
    cases e with
    | nil => simp
    | cons y ys =>
      have hy : y ≠ 0 := he y (by simp)
      simp [List.zip_cons_cons, List.filter_cons, bne_iff_ne, hy,
        ih ys (fun z hz => he z (by simp [hz]))]

lemma filter_zip_of_all_zero : ∀ o e : List ℚ, (∀ x ∈ e, x = 0) →
    ((o.zip e).filter (fun p => p.2 != 0)) = [] := by
  intro o
  induction o with
  | nil => intro e he; simp
  | cons x xs ih =>
    intro e he
    cases e with
    | nil => simp
    | cons y ys =>
      have hy : y = 0 := he y (by simp)
      simp [List.zip_cons_cons, List.filter_cons, bne_iff_ne, hy,
        ih ys (fun z hz => he z (by simp [hz]))]

lemma mem_expected_ne_zero (s : List Char) (egc : ℚ)
    (htot : (observed_classes s).sum ≠ 0) (h0 : egc ≠ 0) (h100 : egc ≠ 100) :
    ∀ x ∈ expected_classes s egc, x ≠ 0 := by
  have h100s : 100 - egc ≠ 0 := sub_ne_zero.mpr (Ne.symm h100)
  intro x hx
  rw [expected_classes_eq] at hx
  have h2 : (2 : ℚ) ≠ 0 := two_ne_zero
  have hd : (100 : ℚ) ≠ 0 := by norm_num
  simp only [List.mem_cons, List.not_mem_nil, or_false] at hx
  rcases hx with rfl | rfl | rfl | rfl
  · exact div_ne_zero (mul_ne_zero htot (div_ne_zero h0 hd)) h2
  · exact div_ne_zero (mul_ne_zero htot (div_ne_zero h0 hd)) h2
  · exact div_ne_zero (mul_ne_zero htot (div_ne_zero h100s hd)) h2
  · exact div_ne_zero (mul_ne_zero htot (div_ne_zero h100s hd)) h2

lemma observed_classes_length (s : List Char) : (observed_classes s).length = 4 := by
  rcases hcs : calculate_nucleotide_counts s with ⟨a_n, c_n, g_n, t_n⟩
  simp [observed_classes_eval s a_n c_n g_n t_n hcs]

lemma expected_classes_length (s : List Char) (egc : ℚ) :
    (expected_classes s egc).length = 4 := by
  simp [expected_classes_eq]

lemma observed_filtered_eq (s : List Char) (egc : ℚ)
    (htot : (observed_classes s).sum ≠ 0) (h0 : egc ≠ 0) (h100 : egc ≠ 100) :
    observed_filtered s egc = observed_classes s := by
  rw [observed_filtered, filter_zip_of_all_ne _ _ (mem_expected_ne_zero s egc htot h0 h100)]
  exact List.map_fst_zip _ _
    (by rw [observed_classes_length, expected_classes_length])

lemma expected_filtered_eq (s : List Char) (egc : ℚ)
    (htot : (observed_classes s).sum ≠ 0) (h0 : egc ≠ 0) (h100 : egc ≠ 100) :
    expected_filtered s egc = expected_classes s egc := by
  rw [expected_filtered, filter_zip_of_all_ne _ _ (mem_expected_ne_zero s egc htot h0 h100)]
  exact List.map_snd_zip _ _
    (by rw [observed_classes_length, expected_classes_length])

lemma observed_filtered_nil (s : List Char) (egc : ℚ)
    (htot : (observed_classes s).sum = 0) :
    observed_filtered s egc = [] := by
  rw [observed_filtered, filter_zip_of_all_zero _ _ ?_, List.map_nil]
  intro x hx
  rw [expected_classes_eq] at hx
  simp only [List.mem_cons, List.not_mem_nil, or_false] at hx
  rcases hx with rfl | rfl | rfl | rfl <;> rw [htot] <;> ring

lemma counts_GC_le_length (l : List Char) : l.count 'G' + l.count 'C' ≤ l.length := by
  induction l with
  | nil => simp
  | cons x xs ih =>
    by_cases hg : x = 'G' <;> by_cases hc : x = 'C' <;>
      simp [List.count_cons, beq_iff_eq, hg, hc, List.length_cons, eq_comm] <;> omega

lemma chiSquareSF_zero (df : ℕ) (hdf : 0 < df) : chiSquareSF df 0 = 1 := by
  have hpos : (0 : ℝ) < (df : ℝ) / 2 := by
    have : (0 : ℝ) < (df : ℝ) := by exact_mod_cast hdf
    linarith
  rw [chiSquareSF, show (((0 : ℚ) : ℝ) / 2) = (0 : ℝ) by norm_num,
    ← Real.Gamma_eq_integral hpos]
  exact div_self (Real.Gamma_pos_of_pos hpos).ne'

/-- Claim C3: the GC percentage is `100 * (g_count + c_count) / length` for
nonempty input, exactly `0` for empty input, and always within `[0, 100]`. -/
theorem claim_C3 (s : List Char) :
    (s.length = 0 → calculate_gc_content s = 0) ∧
    (s.length ≠ 0 →
      ∀ a_count c_count g_count t_count : ℕ,
        calculate_nucleotide_counts s = (a_count, c_count, g_count, t_count) →
        calculate_gc_content s = 100 * ((g_count : ℚ) + (c_count : ℚ)) / (s.length : ℚ)) ∧
    0 ≤ calculate_gc_content s ∧ calculate_gc_content s ≤ 100 := by
  have hlen : (pyUpper s).length = s.length := by simp [pyUpper]
  refine ⟨?_, ?_, ?_, ?_⟩
  · intro h
    simp [calculate_gc_content, hlen, h]
  · intro h a_n c_n g_n t_n hct
    simp only [calculate_nucleotide_counts, Prod.mk.injEq] at hct
    obtain ⟨-, hc, hg, -⟩ := hct
    simp only [calculate_gc_content, hlen, h, if_false, ← hc, ← hg]
    push_cast
    field_simp
    ring
  · by_cases h : s.length = 0
    · simp [calculate_gc_content, hlen, h]
    · simp only [calculate_gc_content, hlen, h, if_false]
      positivity
  · by_cases h : s.length = 0
    · simp [calculate_gc_content, hlen, h]
    · simp only [calculate_gc_content, hlen, h, if_false]
      have h1 : ((pyUpper s).count 'G' + (pyUpper s).count 'C' : ℚ) ≤ (s.length : ℚ) := by
        rw [← hlen]
        exact_mod_cast counts_GC_le_length (pyUpper s)
      have hpos : (0 : ℚ) < (s.length : ℚ) := by
        exact_mod_cast Nat.pos_of_ne_zero h
      calc ((((pyUpper s).count 'G' + (pyUpper s).count 'C' : ℕ) : ℚ) / (s.length : ℚ)) * 100
          ≤ 1 * 100 := by
            apply mul_le_mul_of_nonneg_right _ (by norm_num)
            rw [div_le_one hpos]
            push_cast
            exact h1
        _ = 100 := one_mul _

/-- Claim C9: nucleotide counting is invariant under uppercasing the input,
for strings over the A/C/G/T alphabet and its lowercase variants. -/
theorem claim_C9 (s : List Char)
    (h : ∀ c ∈ s, c ∈ (['A', 'C', 'G', 'T', 'a', 'c', 'g', 't'] : List Char)) :
    calculate_nucleotide_counts (pyUpper s) = calculate_nucleotide_counts s := by
  have hupper : pyUpper (pyUpper s) = pyUpper s := by
    simp only [pyUpper, List.map_map]
    apply List.map_congr_left
    intro c hc
    have hmem := h c hc
    fin_cases hmem <;> decide
  simp [calculate_nucleotide_counts, hupper]

/-- Witness for claim C9 at the concrete input `"aCgT"`. -/
theorem claim_C9_witness :
    (∀ c ∈ "aCgT".toList, c ∈ (['A', 'C', 'G', 'T', 'a', 'c', 'g', 't'] : List Char)) ∧
    calculate_nucleotide_counts (pyUpper "aCgT".toList) =
      calculate_nucleotide_counts "aCgT".toList :=
  ⟨by decide, claim_C9 "aCgT".toList (by decide)⟩

/-- Claim C6: when a test result is present, the verdict is the
"significant" label exactly when `p_value < 0.05`, with strict less-than:
at `p_value = 0.05` the verdict is the "not significant" label. -/
theorem claim_C6 :
    (∀ p_value : ℝ, significance_label p_value = "Значимо" ↔ p_value < 0.05) ∧
    significance_label 0.05 = "Не значимо" := by
  have hne : ("Не значимо" : String) ≠ "Значимо" := by decide
  constructor
  · intro p
    by_cases h : p < 0.05 <;> simp [significance_label, h, hne]
  · have h : ¬ ((0.05 : ℝ) < 0.05) := lt_irrefl _
    simp [significance_label, h]

lemma sum_pos_of_not_few (s : List Char) (egc : ℚ)
    (h : ¬ (observed_filtered s egc).length < 2) :
    0 < (observed_classes s).sum := by
  rcases hcs : calculate_nucleotide_counts s with ⟨a_n, c_n, g_n, t_n⟩
  have hsum : (observed_classes s).sum = ((c_n + g_n + a_n + t_n : ℕ) : ℚ) := by
    rw [observed_classes_eval s _ _ _ _ hcs]
    push_cast
    simp [add_assoc]
  by_contra hle
  have h0 : (observed_classes s).sum = 0 :=
    le_antisymm (not_lt.mp hle) (by rw [hsum]; positivity)
  exact h (by rw [observed_filtered_nil s egc h0]; norm_num)

lemma perform_chisquare_test_eval (s : List Char) (egc : ℚ)
    (htot : (observed_classes s).sum ≠ 0) (h0 : egc ≠ 0) (h100 : egc ≠ 100) :
    perform_chisquare_test s egc =
      some ⟨chisquare_statistic (observed_classes s) (expected_classes s egc),
        chiSquareSF 3 (chisquare_statistic (observed_classes s) (expected_classes s egc)),
        observed_gc_value s, egc, (observed_classes s).sum⟩ := by
  have ho := observed_filtered_eq s egc htot h0 h100
  have he := expected_filtered_eq s egc htot h0 h100
  simp only [perform_chisquare_test, ho, he, observed_classes_length]
  norm_num

/-- Claim C1: for any bases and any expected GC percentage in `[0,100]`,
if fewer than 2 classes survive the zero-expected filter, the analysis
returns the absent-test value `none`; being a total Lean function, the
embedded analysis can raise no exception on any input. -/
theorem claim_C1 (bases : List Char) (expected_gc : ℚ)
    (h0 : 0 ≤ expected_gc) (h100 : expected_gc ≤ 100)
    (hfew : (observed_filtered bases expected_gc).length < 2) :
    perform_chisquare_test bases expected_gc = none := by
  simp only [perform_chisquare_test]
  rw [if_pos hfew]

lemma observed_filtered_NN : observed_filtered "NNNNNNNN".toList 50 = [] := by
  apply observed_filtered_nil
  rw [observed_classes_eval "NNNNNNNN".toList 0 0 0 0 (by decide)]
  norm_num

/-- Witness for claim C1 at the all-N sequence of spec scenario 3. -/
theorem claim_C1_witness :
    ((0 : ℚ) ≤ 50 ∧ (50 : ℚ) ≤ 100 ∧
      (observed_filtered "NNNNNNNN".toList 50).length < 2) ∧
    perform_chisquare_test "NNNNNNNN".toList 50 = none :=
  have hfew : (observed_filtered "NNNNNNNN".toList 50).length < 2 := by
    rw [observed_filtered_NN]
    norm_num
  ⟨⟨by norm_num, by norm_num, hfew⟩,
    claim_C1 "NNNNNNNN".toList 50 (by norm_num) (by norm_num) hfew⟩

lemma perform_GGNN :
    perform_chisquare_test "GGNN".toList 50 = some ⟨6, chiSquareSF 3 6, 100, 50, 2⟩ := by
  have hcs : calculate_nucleotide_counts "GGNN".toList = (0, 0, 2, 0) := by decide
  have hobs : observed_classes "GGNN".toList = [0, 2, 0, 0] := by
    rw [observed_classes_eval _ _ _ _ _ hcs]
    norm_num
  have hsum : (observed_classes "GGNN".toList).sum = 2 := by
    rw [hobs]
    norm_num
  have hexp : expected_classes "GGNN".toList 50 = [1/2, 1/2, 1/2, 1/2] := by
    rw [expected_classes_eq, hsum]
    norm_num
  have hstat : chisquare_statistic (observed_classes "GGNN".toList)
      (expected_classes "GGNN".toList 50) = 6 := by
    rw [hobs, hexp]
    simp [chisquare_statistic]
    norm_num
  have hogc : observed_gc_value "GGNN".toList = 100 := by
    simp only [observed_gc_value, hcs, hsum]
    norm_num
  rw [perform_chisquare_test_eval "GGNN".toList 50 (by rw [hsum]; norm_num)
    (by norm_num) (by norm_num), hstat, hogc, hsum]

/-- Claim C7: whenever a test result exists, its `observed_gc` is computed
with the classified total `T = a+c+g+t` as denominator (with `T > 0`
guaranteed), not the sequence length; at `"GGNN"` this makes the carried
`observed_gc` (100) differ from `gc_percent` (50) and the difference is
preserved. -/
theorem claim_C7 :
    (∀ (bases : List Char) (expected_gc : ℚ) (r : ChiSquareOutcome),
        perform_chisquare_test bases expected_gc = some r →
        ∃ a_count c_count g_count t_count : ℕ,
          calculate_nucleotide_counts bases = (a_count, c_count, g_count, t_count) ∧
          r.total = ((c_count : ℚ) + g_count + a_count + t_count) ∧
          0 < r.total ∧
          r.observed_gc = ((c_count : ℚ) + g_count) / r.total * 100) ∧
    ((perform_chisquare_test "GGNN".toList 50).map (fun r => r.observed_gc) = some 100 ∧
      calculate_gc_content "GGNN".toList = 50 ∧ (100 : ℚ) ≠ 50) := by
  constructor
  · intro bases egc r h
    simp only [perform_chisquare_test] at h
    split_ifs at h with hcond
    have hr := Option.some.inj h
    rcases hcs : calculate_nucleotide_counts bases with ⟨a_n, c_n, g_n, t_n⟩
    have hsum : (observed_classes bases).sum = ((c_n : ℚ) + g_n + a_n + t_n) := by
      rw [observed_classes_eval bases _ _ _ _ hcs]
      simp [add_assoc]
    have hpos : 0 < (observed_classes bases).sum := sum_pos_of_not_few bases egc hcond
    refine ⟨a_n, c_n, g_n, t_n, rfl, ?_, ?_, ?_⟩
    · rw [← hr, ← hsum]
    · rw [← hr]
      exact hpos
    · rw [← hr]
      simp only [observed_gc_value, hcs]
      rw [if_pos hpos, hsum]
  · refine ⟨?_, ?_, by norm_num⟩
    · rw [perform_GGNN]
      rfl
    · have hG : (pyUpper "GGNN".toList).count 'G' = 2 := by decide
      have hC : (pyUpper "GGNN".toList).count 'C' = 0 := by decide
      have hL : (pyUpper "GGNN".toList).length = 4 := by decide
      simp only [calculate_gc_content, hG, hC, hL]
      norm_num

/-- Witness for claim C7 at the concrete input `"GGNN"`. -/
theorem claim_C7_witness :
    ∃ a_count c_count g_count t_count : ℕ,
      calculate_nucleotide_counts "GGNN".toList = (a_count, c_count, g_count, t_count) ∧
      (ChiSquareOutcome.mk 6 (chiSquareSF 3 6) 100 50 2).total =
        ((c_count : ℚ) + g_count + a_count + t_count) ∧
      0 < (ChiSquareOutcome.mk 6 (chiSquareSF 3 6) 100 50 2).total ∧
      (ChiSquareOutcome.mk 6 (chiSquareSF 3 6) 100 50 2).observed_gc =
        ((c_count : ℚ) + g_count) /
          (ChiSquareOutcome.mk 6 (chiSquareSF 3 6) 100 50 2).total * 100 :=
  claim_C7.1 "GGNN".toList 50 (ChiSquareOutcome.mk 6 (chiSquareSF 3 6) 100 50 2)
    perform_GGNN

/-- Claim C4: on `"GGGGCCCCAAAATTTT"` with expected GC 50 the analysis
yields counts (4,4,4,4), GC percentage 50, statistic exactly 0, p-value
exactly 1, and the "not significant" verdict. -/
theorem claim_C4 :
    calculate_nucleotide_counts "GGGGCCCCAAAATTTT".toList = (4, 4, 4, 4) ∧
    calculate_gc_content "GGGGCCCCAAAATTTT".toList = 50 ∧
    perform_chisquare_test "GGGGCCCCAAAATTTT".toList 50 = some ⟨0, 1, 50, 50, 16⟩ ∧
    significance_label 1 = "Не значимо" := by
  have hcs : calculate_nucleotide_counts "GGGGCCCCAAAATTTT".toList = (4, 4, 4, 4) := by
    decide
  have hobs : observed_classes "GGGGCCCCAAAATTTT".toList = [4, 4, 4, 4] := by
    rw [observed_classes_eval _ _ _ _ _ hcs]
    norm_num
  have hsum : (observed_classes "GGGGCCCCAAAATTTT".toList).sum = 16 := by
    rw [hobs]
    norm_num
  have hexp : expected_classes "GGGGCCCCAAAATTTT".toList 50 = [4, 4, 4, 4] := by
    rw [expected_classes_eq, hsum]
    norm_num
  have hstat : chisquare_statistic (observed_classes "GGGGCCCCAAAATTTT".toList)
      (expected_classes "GGGGCCCCAAAATTTT".toList 50) = 0 := by
    rw [hobs, hexp]
    simp [chisquare_statistic]
  have hogc : observed_gc_value "GGGGCCCCAAAATTTT".toList = 50 := by
    simp only [observed_gc_value, hcs, hsum]
    norm_num
  refine ⟨hcs, ?_, ?_, ?_⟩
  · have hG : (pyUpper "GGGGCCCCAAAATTTT".toList).count 'G' = 4 := by decide
    have hC : (pyUpper "GGGGCCCCAAAATTTT".toList).count 'C' = 4 := by decide
    have hL : (pyUpper "GGGGCCCCAAAATTTT".toList).length = 16 := by decide
    simp only [calculate_gc_content, hG, hC, hL]
    norm_num
  · rw [perform_chisquare_test_eval "GGGGCCCCAAAATTTT".toList 50 (by rw [hsum]; norm_num)
      (by norm_num) (by norm_num), hstat, hogc, hsum,
      chiSquareSF_zero 3 (by norm_num)]
  · have h : ¬ ((1 : ℝ) < 0.05) := by norm_num
    simp [significance_label, h]

/-! ### Parsing infrastructure lemmas -/

lemma cleanStr_no_space (s : List Char) (h : cleanStr s = true) :
    ∀ c ∈ s, pyIsSpace c = false := by
  intro c hc
  have hcl := List.all_eq_true.mp h c hc
  simp only [cleanChar, Bool.and_eq_true, Bool.not_eq_true'] at hcl
  exact hcl.1

lemma cleanStr_no_eol (s : List Char) (h : cleanStr s = true) :
    ∀ c ∈ s, isPyLineBreak c = false := by
  intro c hc
  have hcl := List.all_eq_true.mp h c hc
  simp only [cleanChar, Bool.and_eq_true, Bool.not_eq_true'] at hcl
  exact hcl.2

lemma splitlinesAux_newline (rest cur : List Char) :
    splitlinesAux ('\n' :: rest) cur = cur.reverse :: splitlinesAux rest [] := by
  rw [splitlinesAux.eq_def]
  dsimp only
  rw [if_pos (by decide)]
  cases rest with
  | nil => rfl
  | cons r2 rest2 =>
    dsimp only
    rw [if_neg (by rintro ⟨h1, -⟩; exact absurd h1 (by decide))]

lemma splitlinesAux_clean_cons (c : Char) (rest cur : List Char)
    (h : isPyLineBreak c = false) :
    splitlinesAux (c :: rest) cur = splitlinesAux rest (c :: cur) := by
  rw [splitlinesAux.eq_def]
  dsimp only
  rw [if_neg (by simp [h])]

lemma splitlinesAux_append (l : List Char) (hl : ∀ c ∈ l, isPyLineBreak c = false) :
    ∀ rest cur : List Char,
      splitlinesAux (l ++ '\n' :: rest) cur = (cur.reverse ++ l) :: splitlinesAux rest [] := by
  induction l with
  | nil =>
    intro rest cur
    simpa using splitlinesAux_newline rest cur
  | cons c l ih =>
    intro rest cur
    have hc : isPyLineBreak c = false := hl c (by simp)
    rw [List.cons_append, splitlinesAux_clean_cons c _ cur hc,
      ih (fun d hd => hl d (by simp [hd])) rest (c :: cur)]
    simp

lemma splitlinesAux_last (l : List Char) (hl : ∀ c ∈ l, isPyLineBreak c = false) :
    ∀ cur : List Char,
      splitlinesAux l cur = if cur.reverse ++ l = [] then [] else [cur.reverse ++ l] := by
  induction l with
  | nil =>
    intro cur
    rw [splitlinesAux.eq_def]
    dsimp only
    rcases hc : cur with - | ⟨a, cur2⟩ <;> simp
  | cons c l ih =>
    intro cur
    have hc : isPyLineBreak c = false := hl c (by simp)
    rw [splitlinesAux_clean_cons c _ cur hc, ih (fun d hd => hl d (by simp [hd])) (c :: cur)]
    simp

lemma dropWhile_false_of_all {p : Char → Bool} :
    ∀ s : List Char, (∀ c ∈ s, p c = false) → s.dropWhile p = s := by
  intro s h
  cases s with
  | nil => rfl
  | cons a l =>
    rw [List.dropWhile_cons]
    simp [h a (by simp)]

lemma pyStrip_clean (s : List Char) (h : ∀ c ∈ s, pyIsSpace c = false) :
    pyStrip s = s := by
  rw [pyStrip, dropWhile_false_of_all s h,
    dropWhile_false_of_all s.reverse (fun c hc => h c (List.mem_reverse.mp hc)),
    List.reverse_reverse]

lemma pyStrip_header (id : List Char) (h : cleanStr id = true) :
    pyStrip ('>' :: id) = '>' :: id := by
  apply pyStrip_clean
  intro c hc
  rcases List.mem_cons.mp hc with rfl | hmem
  · decide
  · exact cleanStr_no_space id h c hmem

lemma pyStrip_body (b : List Char) (h : cleanStr b = true) : pyStrip b = b :=
  pyStrip_clean b (cleanStr_no_space b h)

lemma mem_dictInsert (p : List Char × List Char) :
    ∀ (d : List (List Char × List Char)) (k v : List Char),
      p ∈ dictInsert d k v → p ∈ d ∨ p = (k, v) := by
  intro d
  induction d with
  | nil =>
    intro k v h
    simp [dictInsert] at h
    exact Or.inr h
  | cons q rest ih =>
    intro k v h
    rcases q with ⟨k1, v1⟩
    rw [dictInsert] at h
    split_ifs at h with he
    · rcases List.mem_cons.mp h with rfl | hmem
      · exact Or.inr rfl
      · exact Or.inl (List.mem_cons.mpr (Or.inr hmem))
    · rcases List.mem_cons.mp h with rfl | hmem
      · exact Or.inl (List.mem_cons.mpr (Or.inl rfl))
      · rcases ih k v hmem with h2 | h2
        · exact Or.inl (List.mem_cons.mpr (Or.inr h2))
        · exact Or.inr h2

lemma dictInsert_of_fresh :
    ∀ (d : List (List Char × List Char)) (k v : List Char),
      (∀ q ∈ d, q.1 ≠ k) → dictInsert d k v = d ++ [(k, v)] := by
  intro d
  induction d with
  | nil => intro k v _; rfl
  | cons q rest ih =>
    intro k v h
    rcases q with ⟨k1, v1⟩
    rw [dictInsert, if_neg (h (k1, v1) (by simp)), ih k v (fun q hq => h q (by simp [hq]))]
    rfl

lemma fastaLoop_cons (line : List Char) (rest : List (List Char))
    (header : Option (List Char)) (sequence : List Char)
    (sequences : List (List Char × List Char)) :
    fastaLoop (line :: rest) header sequence sequences =
      if (pyStrip line).head? = some '>' then
        fastaLoop rest (some (pyStrip line).tail) [] (saveRecord header sequence sequences)
      else
        fastaLoop rest header (sequence ++ pyStrip line) sequences := rfl

lemma eol_free_header (i : List Char) (h : cleanStr i = true) :
    ∀ c ∈ '>' :: i, isPyLineBreak c = false := by
  intro c hc
  rcases List.mem_cons.mp hc with rfl | hmem
  · decide
  · exact cleanStr_no_eol i h c hmem

lemma pySplitlines_encode :
    ∀ pairs : List (List Char × List Char),
      (∀ p ∈ pairs, cleanStr p.1 = true ∧ cleanStr p.2 = true) →
      pySplitlines (encodeRecords pairs) = headerLines pairs := by
  intro pairs
  induction pairs with
  | nil => intro _; rfl
  | cons p ps ih =>
    intro hclean
    rcases p with ⟨i, b⟩
    have hi := (hclean (i, b) (by simp)).1
    have hb := (hclean (i, b) (by simp)).2
    have hshape : encodeRecords ((i, b) :: ps) =
        ('>' :: i) ++ '\n' :: (b ++ '\n' :: encodeRecords ps) := by
      simp [encodeRecords, List.flatten]
    have hlines : headerLines ((i, b) :: ps) = ('>' :: i) :: b :: headerLines ps := by
      simp [headerLines, List.flatten]
    rw [pySplitlines] at ih ⊢
    rw [hshape, hlines,
      splitlinesAux_append ('>' :: i) (eol_free_header i hi) _ [],
      splitlinesAux_append b (cleanStr_no_eol b hb) _ [],
      ih (fun q hq => hclean q (by simp [hq]))]
    simp

lemma fastaLoop_encode :
    ∀ (pairs : List (List Char × List Char)) (header : Option (List Char))
      (sequence : List Char) (d : List (List Char × List Char)),
      (∀ p ∈ pairs, cleanStr p.1 = true ∧ cleanStr p.2 = true) →
      (∀ p ∈ pairs, p.1 ≠ []) →
      (∀ p ∈ pairs, p.2.head? ≠ some '>') →
      (pairs.map Prod.fst).Nodup →
      (∀ p ∈ pairs, ∀ q ∈ saveRecord header sequence d, q.1 ≠ p.1) →
      fastaLoop (headerLines pairs) header sequence d =
        saveRecord header sequence d ++ pairs := by
  intro pairs
  induction pairs with
  | nil =>
    intro header sequence d _ _ _ _ _
    simp [headerLines, fastaLoop]
  | cons p ps ih =>
    intro header sequence d hclean hne hgt hnodup hfresh
    rcases p with ⟨i, b⟩
    have hi := (hclean (i, b) (by simp)).1
    have hb := (hclean (i, b) (by simp)).2
    have hie : i ≠ [] := hne (i, b) (by simp)
    have hbgt : b.head? ≠ some '>' := hgt (i, b) (by simp)
    have hlines : headerLines ((i, b) :: ps) = ('>' :: i) :: b :: headerLines ps := by
      simp [headerLines, List.flatten]
    have hfresh1 : ∀ q ∈ saveRecord header sequence d, q.1 ≠ i :=
      fun q hq => hfresh (i, b) (by simp) q hq
    have hsave : saveRecord (some i) b (saveRecord header sequence d) =
        saveRecord header sequence d ++ [(i, b)] := by
      rw [saveRecord, if_neg (by simp [hie])]
      exact dictInsert_of_fresh _ i b hfresh1
    have hfresh2 : ∀ r ∈ ps, ∀ q ∈ saveRecord (some i) b (saveRecord header sequence d),
        q.1 ≠ r.1 := by
      intro r hr q hq
      rw [hsave] at hq
      rcases List.mem_append.mp hq with hq1 | hq2
      · exact hfresh r (by simp [hr]) q hq1
      · have hqe : q = (i, b) := by simpa using hq2
        subst hqe
        intro he
        exact (List.nodup_cons.mp hnodup).1 (List.mem_map.mpr ⟨r, hr, he.symm⟩)
    rw [hlines, fastaLoop_cons, pyStrip_header i hi,
      if_pos (show ('>' :: i).head? = some '>' from rfl),
      fastaLoop_cons, pyStrip_body b hb, if_neg hbgt]
    simp only [List.tail_cons, List.nil_append]
    rw [ih (some i) b (saveRecord header sequence d)
      (fun q hq => hclean q (by simp [hq])) (fun q hq => hne q (by simp [hq]))
      (fun q hq => hgt q (by simp [hq])) (List.nodup_cons.mp hnodup).2 hfresh2, hsave]
    simp

/-- Counterexample to claim C2 as stated: concatenating `">"+id+"\n"+bases`
without separating the records puts the second header on the first record's
sequence line, so the pair `("b", "AT")` is lost. -/
theorem claim_C2_counterexample :
    read_fasta_string (encodeRecordsNoNL [("a".toList, "CG".toList), ("b".toList, "AT".toList)]) =
      [("a".toList, "CG>bAT".toList)] ∧
    (read_fasta_string
        (encodeRecordsNoNL [("a".toList, "CG".toList), ("b".toList, "AT".toList)])).lookup
      "b".toList = none := by
  constructor
  · decide
  · decide

/-- Claim C2 amended: the round-trip holds once each record is terminated
by a newline (`">"+id+"\n"+bases+"\n"`), for pairwise-distinct nonempty
ids, id and bases text free of whitespace and line boundaries, and bases
not starting with the delimiter. -/
theorem claim_C2 (pairs : List (List Char × List Char))
    (hclean : ∀ p ∈ pairs, cleanStr p.1 = true ∧ cleanStr p.2 = true)
    (hne : ∀ p ∈ pairs, p.1 ≠ [])
    (hgt : ∀ p ∈ pairs, p.2.head? ≠ some '>')
    (hnodup : (pairs.map Prod.fst).Nodup) :
    read_fasta_string (encodeRecords pairs) = pairs := by
  have hfresh : ∀ p ∈ pairs,
      ∀ q ∈ saveRecord none ([] : List Char) ([] : List (List Char × List Char)),
        q.1 ≠ p.1 := by
    intro p hp q hq
    simp [saveRecord] at hq
  rw [read_fasta_string, pySplitlines_encode pairs hclean,
    fastaLoop_encode pairs none [] [] hclean hne hgt hnodup hfresh]
  simp [saveRecord]

/-- Witness for the amended claim C2 at two concrete records. -/
theorem claim_C2_witness :
    ((∀ p ∈ [("a".toList, "CG".toList), ("b".toList, "AT".toList)],
        cleanStr p.1 = true ∧ cleanStr p.2 = true) ∧
      (∀ p ∈ [("a".toList, "CG".toList), ("b".toList, "AT".toList)], p.1 ≠ []) ∧
      (∀ p ∈ [("a".toList, "CG".toList), ("b".toList, "AT".toList)],
        p.2.head? ≠ some '>') ∧
      ([("a".toList, "CG".toList), ("b".toList, "AT".toList)].map Prod.fst).Nodup) ∧
    read_fasta_string (encodeRecords [("a".toList, "CG".toList), ("b".toList, "AT".toList)]) =
      [("a".toList, "CG".toList), ("b".toList, "AT".toList)] :=
  ⟨⟨by decide, by decide, by decide, by decide⟩,
    claim_C2 [("a".toList, "CG".toList), ("b".toList, "AT".toList)]
      (by decide) (by decide) (by decide) (by decide)⟩

lemma fastaLoop_nil (header : Option (List Char)) (sequence : List Char)
    (sequences : List (List Char × List Char)) :
    fastaLoop [] header sequence sequences = saveRecord header sequence sequences := rfl

lemma saveRecord_nonempty (id sq : List Char) (d : List (List Char × List Char))
    (h : id ≠ []) : saveRecord (some id) sq d = dictInsert d id sq := by
  rw [saveRecord, if_neg (by simp [h])]

/-- Claim C5: a two-record text whose records share one identifier parses
to a mapping holding only the later record's bases. -/
theorem claim_C5 (id b1 b2 : List Char)
    (hid : cleanStr id = true) (hide2 : id ≠ [])
    (hb1 : cleanStr b1 = true) (hb1g : b1.head? ≠ some '>')
    (hb2 : cleanStr b2 = true) (hb2g : b2.head? ≠ some '>') :
    read_fasta_string (encodeRecords [(id, b1), (id, b2)]) = [(id, b2)] := by
  have hclean : ∀ p ∈ [(id, b1), (id, b2)], cleanStr p.1 = true ∧ cleanStr p.2 = true := by
    intro p hp
    rcases List.mem_cons.mp hp with rfl | hp2
    · exact ⟨hid, hb1⟩
    · rcases List.mem_cons.mp hp2 with rfl | h3
      · exact ⟨hid, hb2⟩
      · simp at h3
  have hlines : headerLines [(id, b1), (id, b2)] = [('>' :: id), b1, ('>' :: id), b2] := by
    simp [headerLines]
  rw [read_fasta_string, pySplitlines_encode [(id, b1), (id, b2)] hclean, hlines,
    fastaLoop_cons, pyStrip_header id hid,
    if_pos (show ('>' :: id).head? = some '>' from rfl),
    fastaLoop_cons, pyStrip_body b1 hb1, if_neg hb1g,
    fastaLoop_cons, pyStrip_header id hid,
    if_pos (show ('>' :: id).head? = some '>' from rfl),
    fastaLoop_cons, pyStrip_body b2 hb2, if_neg hb2g, fastaLoop_nil]
  simp only [List.tail_cons, List.nil_append]
  rw [show saveRecord none [] [] = [] from rfl,
    saveRecord_nonempty id b1 [] hide2,
    show dictInsert [] id b1 = [(id, b1)] from rfl,
    saveRecord_nonempty id b2 [(id, b1)] hide2,
    dictInsert, if_pos rfl]

/-- Witness for claim C5 at a concrete duplicated identifier. -/
theorem claim_C5_witness :
    (cleanStr "a".toList = true ∧ "a".toList ≠ [] ∧
      cleanStr "CG".toList = true ∧ "CG".toList.head? ≠ some '>' ∧
      cleanStr "AT".toList = true ∧ "AT".toList.head? ≠ some '>') ∧
    read_fasta_string (encodeRecords [("a".toList, "CG".toList), ("a".toList, "AT".toList)]) =
      [("a".toList, "AT".toList)] :=
  ⟨⟨by decide, by decide, by decide, by decide, by decide, by decide⟩,
    claim_C5 "a".toList "CG".toList "AT".toList (by decide) (by decide) (by decide)
      (by decide) (by decide) (by decide)⟩

lemma fastaLoop_no_delim :
    ∀ (lines : List (List Char)) (sequence : List Char),
      (∀ l ∈ lines, (pyStrip l).head? ≠ some '>') →
      fastaLoop lines none sequence [] = [] := by
  intro lines
  induction lines with
  | nil => intro sequence _; rfl
  | cons l ls ih =>
    intro sequence h
    rw [fastaLoop_cons, if_neg (h l (by simp))]
    exact ih _ (fun x hx => h x (by simp [hx]))

/-- Claim C8: text with no delimiter line parses to the empty mapping, and
a multi-record text whose final record is not newline-terminated still
yields that last record. -/
theorem claim_C8 :
    (∀ text : List Char,
        (∀ line ∈ pySplitlines text, (pyStrip line).head? ≠ some '>') →
        read_fasta_string text = []) ∧
    (∀ id1 b1 id2 b2 : List Char,
        cleanStr id1 = true → id1 ≠ [] → cleanStr b1 = true → b1.head? ≠ some '>' →
        cleanStr id2 = true → id2 ≠ [] → cleanStr b2 = true → b2.head? ≠ some '>' →
        id1 ≠ id2 →
        (read_fasta_string
            (('>' :: id1) ++ '\n' :: (b1 ++ '\n' :: (('>' :: id2) ++ '\n' :: b2)))).lookup id2 =
          some b2) := by
  constructor
  · intro text h
    rw [read_fasta_string]
    exact fastaLoop_no_delim _ _ h
  · intro id1 b1 id2 b2 h1c h1e hb1c hb1g h2c h2e hb2c hb2g h12
    have hne12 : (id2 == id1) = false := by
      simp [Ne.symm h12]
    have hself : (id2 == id2) = true := by simp
    rw [read_fasta_string, pySplitlines,
      splitlinesAux_append ('>' :: id1) (eol_free_header id1 h1c) _ [],
      splitlinesAux_append b1 (cleanStr_no_eol b1 hb1c) _ [],
      splitlinesAux_append ('>' :: id2) (eol_free_header id2 h2c) _ [],
      splitlinesAux_last b2 (cleanStr_no_eol b2 hb2c) []]
    simp only [List.reverse_nil, List.nil_append]
    by_cases hb2e : b2 = []
    · subst hb2e
      rw [if_pos rfl, fastaLoop_cons, pyStrip_header id1 h1c,
        if_pos (show ('>' :: id1).head? = some '>' from rfl),
        fastaLoop_cons, pyStrip_body b1 hb1c, if_neg hb1g,
        fastaLoop_cons, pyStrip_header id2 h2c,
        if_pos (show ('>' :: id2).head? = some '>' from rfl), fastaLoop_nil]
      simp only [List.tail_cons, List.nil_append]
      rw [show saveRecord none [] [] = [] from rfl,
        saveRecord_nonempty id1 b1 [] h1e,
        show dictInsert [] id1 b1 = [(id1, b1)] from rfl,
        saveRecord_nonempty id2 [] [(id1, b1)] h2e,
        dictInsert, if_neg h12]
      simp [List.lookup, hne12, hself]
    · rw [if_neg hb2e, fastaLoop_cons, pyStrip_header id1 h1c,
        if_pos (show ('>' :: id1).head? = some '>' from rfl),
        fastaLoop_cons, pyStrip_body b1 hb1c, if_neg hb1g,
        fastaLoop_cons, pyStrip_header id2 h2c,
        if_pos (show ('>' :: id2).head? = some '>' from rfl),
        fastaLoop_cons, pyStrip_body b2 hb2c, if_neg hb2g, fastaLoop_nil]
      simp only [List.tail_cons, List.nil_append]
      rw [show saveRecord none [] [] = [] from rfl,
        saveRecord_nonempty id1 b1 [] h1e,
        show dictInsert [] id1 b1 = [(id1, b1)] from rfl,
        saveRecord_nonempty id2 b2 [(id1, b1)] h2e,
        dictInsert, if_neg h12]
      simp [List.lookup, hne12, hself]

/-- Witness for claim C8: a delimiter-free text and a two-record text with
an unterminated final record. -/
theorem claim_C8_witness :
    ((∀ line ∈ pySplitlines "abc\ndef".toList, (pyStrip line).head? ≠ some '>') ∧
      read_fasta_string "abc\ndef".toList = []) ∧
    (read_fasta_string
        (('>' :: "a".toList) ++ '\n' :: ("CG".toList ++ '\n' ::
          (('>' :: "b".toList) ++ '\n' :: "AT".toList)))).lookup "b".toList =
      some "AT".toList :=
  ⟨⟨by decide, claim_C8.1 "abc\ndef".toList (by decide)⟩,
    claim_C8.2 "a".toList "CG".toList "b".toList "AT".toList (by decide) (by decide)
      (by decide) (by decide) (by decide) (by decide) (by decide) (by decide) (by decide)⟩

/-- Claim C10: a bare `">"` line (empty identifier) terminates the pending
record but its own record is silently dropped: neither the empty id nor
the following sequence lines reach the result. -/
theorem claim_C10 (id1 b1 b2 : List Char)
    (h1c : cleanStr id1 = true) (h1e : id1 ≠ [])
    (hb1c : cleanStr b1 = true) (hb1g : b1.head? ≠ some '>')
    (hb2c : cleanStr b2 = true) (hb2g : b2.head? ≠ some '>') :
    read_fasta_string
        (('>' :: id1) ++ '\n' :: (b1 ++ '\n' :: ('>' :: '\n' :: (b2 ++ ['\n'])))) =
      [(id1, b1)] := by
  have hgtl : ∀ c ∈ (['>'] : List Char), isPyLineBreak c = false := by decide
  have hshape : ('>' :: '\n' :: (b2 ++ ['\n'])) = ['>'] ++ '\n' :: (b2 ++ '\n' :: []) := by
    simp
  rw [read_fasta_string, pySplitlines, hshape,
    splitlinesAux_append ('>' :: id1) (eol_free_header id1 h1c) _ [],
    splitlinesAux_append b1 (cleanStr_no_eol b1 hb1c) _ [],
    splitlinesAux_append ['>'] hgtl _ [],
    splitlinesAux_append b2 (cleanStr_no_eol b2 hb2c) _ []]
  simp only [List.reverse_nil, List.nil_append]
  rw [show splitlinesAux [] [] = [] from rfl,
    fastaLoop_cons, pyStrip_header id1 h1c,
    if_pos (show ('>' :: id1).head? = some '>' from rfl),
    fastaLoop_cons, pyStrip_body b1 hb1c, if_neg hb1g,
    fastaLoop_cons, pyStrip_clean ['>'] (by decide),
    if_pos (show (['>'] : List Char).head? = some '>' from rfl),
    fastaLoop_cons, pyStrip_body b2 hb2c, if_neg hb2g, fastaLoop_nil]
  simp only [List.tail_cons, List.nil_append]
  rw [show saveRecord none [] [] = [] from rfl,
    saveRecord_nonempty id1 b1 [] h1e,
    show dictInsert [] id1 b1 = [(id1, b1)] from rfl]
  rfl

/-- Witness for claim C10 at a concrete empty-identifier record. -/
theorem claim_C10_witness :
    (cleanStr "a".toList = true ∧ "a".toList ≠ [] ∧
      cleanStr "CG".toList = true ∧ "CG".toList.head? ≠ some '>' ∧
      cleanStr "AT".toList = true ∧ "AT".toList.head? ≠ some '>') ∧
    read_fasta_string
        (('>' :: "a".toList) ++ '\n' :: ("CG".toList ++ '\n' ::
          ('>' :: '\n' :: ("AT".toList ++ ['\n'])))) =
      [("a".toList, "CG".toList)] :=
  ⟨⟨by decide, by decide, by decide, by decide, by decide, by decide⟩,
    claim_C10 "a".toList "CG".toList "AT".toList (by decide) (by decide) (by decide)
      (by decide) (by decide) (by decide)⟩

/-- Witness for claim C3 at the empty sequence and at `"GGAT"`. -/
theorem claim_C3_witness :
    calculate_gc_content "".toList = 0 ∧
    calculate_gc_content "GGAT".toList =
      100 * (((2 : ℕ) : ℚ) + ((0 : ℕ) : ℚ)) / (("GGAT".toList.length : ℕ) : ℚ) :=
  ⟨(claim_C3 "".toList).1 (by decide),
    (claim_C3 "GGAT".toList).2.1 (by decide) 1 0 2 1 (by decide)⟩

/-- Witness for claim C6 at the p-values 0.04 and 0.05. -/
theorem claim_C6_witness :
    significance_label 0.04 = "Значимо" ∧ significance_label 0.05 = "Не значимо" :=
  ⟨(claim_C6.1 0.04).mpr (by norm_num), claim_C6.2⟩
